import Mathlib

/-
Verification development for `ant_lightning.py`, the ACO payment-routing
solver (class `LightningACO`).

Shallow-embedding conventions:
* Python floats are modelled as rationals (`ℚ`); `float('inf')` for the
  best fee is modelled with `WithTop ℚ` (`⊤` = +infinity).
* The exponents `alpha` and `beta` are modelled as integers (`ℤ`, via
  `zpow`): the reference configuration uses integral exponents
  (alpha = 1.0, beta = 2.0), and rational powers with rational exponents
  are not expressible over `ℚ`.
* `random.uniform(0, 1)` is modelled by threading an explicit stream of
  draws (`List ℚ`); an exhausted stream yields 0.  Determinism of the
  seeded generator means the stream is a function of the seed.
* Python's insertion-ordered `dict` for `self.pheromones` is modelled as
  an insertion-ordered association list.
* A Python `ZeroDivisionError` escaping a call is modelled by `Option`:
  `none` is the raised exception (the only fault source reachable in the
  modelled paths is `self.Q / total_fee` with `total_fee = 0`).
-/

/-- A payment channel, as consumed by the core (duck-typed interface:
`source`, `destination`, `liquidity`, `calculate_fee`). -/
structure Channel where
  source : String
  destination : String
  liquidity : ℚ
  calculate_fee : ℚ → ℚ

/-- The topology provider interface (`get_all_nodes`, `get_outgoing_channels`). -/
structure NetworkGraph where
  get_all_nodes : List String
  get_outgoing_channels : String → List Channel

/-- `MockChannel(source, destination, liquidity, base_fee, fee_rate)` with
`calculate_fee(amount) = base_fee + amount * fee_rate`. -/
def mkMockChannel (source destination : String) (liquidity base_fee fee_rate : ℚ) : Channel :=
  { source := source, destination := destination, liquidity := liquidity,
    calculate_fee := fun amount => base_fee + amount * fee_rate }

/-- The immutable attributes stored by `LightningACO.__init__`. -/
structure Config where
  graph : NetworkGraph
  num_ants : ℤ
  iterations : ℤ
  alpha : ℤ
  beta : ℤ
  evaporation_rate : ℚ
  Q : ℚ

/-- The pheromone dictionary `self.pheromones`, keyed by directed edge. -/
abbrev Pheromones := List ((String × String) × ℚ)

/-- `self.pheromones.get(edge, default)`: first-match lookup with a default. -/
def pherGetD : Pheromones → (String × String) → ℚ → ℚ
  | [], _, d => d
  | (k, v) :: rest, e, d => if k = e then v else pherGetD rest e d

/-- `self.pheromones.get(edge)` as an optional lookup (first match). -/
def pherFind : Pheromones → (String × String) → Option ℚ
  | [], _ => none
  | (k, v) :: rest, e => if k = e then some v else pherFind rest e

/-- `self.pheromones[edge] = v`: replace the entry if the key is present,
append it otherwise (Python dict assignment). -/
def pherSet : Pheromones → (String × String) → ℚ → Pheromones
  | [], e, v => [(e, v)]
  | (k, w) :: rest, e, v => if k = e then (k, v) :: rest else (k, w) :: pherSet rest e v

/-- The mutable attributes of a `LightningACO` object
(`self.pheromones`, `self.best_path`, `self.best_path_fee`). -/
structure SolverState where
  pheromones : Pheromones
  best_path : Option (List String)
  best_path_fee : WithTop ℚ

/-- The state set up by `LightningACO.__init__`:
`self.pheromones = {}`, `self.best_path = None`, `self.best_path_fee = inf`. -/
def initState : SolverState :=
  { pheromones := [], best_path := none, best_path_fee := ⊤ }

instance : Inhabited Channel :=
  ⟨{ source := "", destination := "", liquidity := 0, calculate_fee := fun _ => 0 }⟩

instance : Inhabited NetworkGraph :=
  ⟨{ get_all_nodes := [], get_outgoing_channels := fun _ => [] }⟩

instance : Inhabited SolverState := ⟨initState⟩

/-- `LightningACO._initialize_pheromones`: for every node, for every outgoing
channel, set the level of `(channel.source, channel.destination)` to 1.0.
The surrounding dictionary (possibly carrying entries from an earlier call)
is mutated in place. -/
def initPheromones (g : NetworkGraph) (p : Pheromones) : Pheromones :=
  g.get_all_nodes.foldl
    (fun p node =>
      (g.get_outgoing_channels node).foldl
        (fun p channel => pherSet p (channel.source, channel.destination) 1) p)
    p

/-- The feasibility filter of `_select_next_channel`:
`next_node not in visited_nodes and channel.liquidity >= payment_amount`. -/
def feasibleChannels (g : NetworkGraph) (payment_amount : ℚ)
    (current_node : String) (visited_nodes : List String) : List Channel :=
  (g.get_outgoing_channels current_node).filter
    (fun channel =>
      !(visited_nodes.contains channel.destination) && decide (payment_amount ≤ channel.liquidity))

/-- The epsilon `1e-9` added to the fee before inverting. -/
def feeEps : ℚ := 1 / 1000000000

/-- The weight `prob = pheromone * heuristic` computed for one feasible
channel in `_select_next_channel`:
`heuristic = (1.0 / (fee + 1e-9)) ** beta`, `pheromone = level ** alpha`. -/
def channelWeight (cfg : Config) (pher : Pheromones) (current_node : String)
    (channel : Channel) (payment_amount : ℚ) : ℚ :=
  let fee := channel.calculate_fee payment_amount
  let heuristic := (1 / (fee + feeEps)) ^ cfg.beta
  let pheromone_level := pherGetD pher (current_node, channel.destination) 1
  let pheromone := pheromone_level ^ cfg.alpha
  pheromone * heuristic

/-- The `(channel, prob)` list built by the feasibility loop of
`_select_next_channel`. -/
def weightedChannels (cfg : Config) (pher : Pheromones) (current_node : String)
    (visited_nodes : List String) (payment_amount : ℚ) : List (Channel × ℚ) :=
  (feasibleChannels cfg.graph payment_amount current_node visited_nodes).map
    (fun channel => (channel, channelWeight cfg pher current_node channel payment_amount))

/-- `total_prob`, the sum of the computed weights. -/
def totalWeight (cfg : Config) (pher : Pheromones) (current_node : String)
    (visited_nodes : List String) (payment_amount : ℚ) : ℚ :=
  ((weightedChannels cfg pher current_node visited_nodes payment_amount).map Prod.snd).sum

/-- The roulette-wheel walk: accumulate probabilities and return the first
channel whose cumulative probability reaches the draw `r`. -/
def rouletteWalk (r : ℚ) : ℚ → List (Channel × ℚ) → Option Channel
  | _, [] => none
  | cumulative_prob, (channel, prob) :: rest =>
    if r ≤ cumulative_prob + prob then some channel
    else rouletteWalk r (cumulative_prob + prob) rest

/-- One draw from the modelled `random.uniform(0, 1)` stream. -/
def drawUniform : List ℚ → ℚ × List ℚ
  | [] => (0, [])
  | r :: rest => (r, rest)

/-- `LightningACO._select_next_channel`: filter to feasible channels, weight
them by pheromone and inverse fee, return `None` if the total weight is zero,
otherwise normalize and sample by roulette wheel (falling back to the last
entry on floating-point shortfall). -/
def selectNextChannel (cfg : Config) (pher : Pheromones) (current_node : String)
    (visited_nodes : List String) (payment_amount : ℚ) (rng : List ℚ) :
    Option Channel × List ℚ :=
  let probabilities := weightedChannels cfg pher current_node visited_nodes payment_amount
  let total_prob := totalWeight cfg pher current_node visited_nodes payment_amount
  if total_prob = 0 then
    (none, rng)
  else
    let normalized := probabilities.map (fun cp => (cp.1, cp.2 / total_prob))
    let r := (drawUniform rng).1
    let rng' := (drawUniform rng).2
    match rouletteWalk r 0 normalized with
    | some channel => (some channel, rng')
    | none => ((normalized.getLast?).map Prod.fst, rng')

/-- The `while` loop of `_construct_path`: advance until the current node is
the end node or the path length reaches the node count; a stuck selector
aborts with no path.  (The `float('inf')` fee paired with a `None` path is
dropped: callers test the path only.) -/
def constructAux (cfg : Config) (end_node : String) (payment_amount : ℚ)
    (pher : Pheromones) (path : List String) (current_node : String)
    (total_fee : ℚ) (rng : List ℚ) : Option (List String × ℚ) × List ℚ :=
  if h : current_node ≠ end_node ∧ path.length < cfg.graph.get_all_nodes.length then
    match selectNextChannel cfg pher current_node path payment_amount rng with
    | (none, rng') => (none, rng')
    | (some next_channel, rng') =>
      constructAux cfg end_node payment_amount pher
        (path ++ [next_channel.destination]) next_channel.destination
        (total_fee + next_channel.calculate_fee payment_amount) rng'
  else
    if current_node = end_node then (some (path, total_fee), rng) else (none, rng)
termination_by cfg.graph.get_all_nodes.length - path.length
decreasing_by
  simp only [List.length_append, List.length_cons, List.length_nil]
  omega

/-- `LightningACO._construct_path`: one ant's walk from the start node. -/
def constructPath (cfg : Config) (pher : Pheromones) (start_node end_node : String)
    (payment_amount : ℚ) (rng : List ℚ) : Option (List String × ℚ) × List ℚ :=
  constructAux cfg end_node payment_amount pher [start_node] start_node 0 rng

/-- The evaporation loop of `_update_pheromones`: every stored level is
multiplied by `(1 - evaporation_rate)`. -/
def decayPheromones (evaporation_rate : ℚ) (p : Pheromones) : Pheromones :=
  p.map (fun kv => (kv.1, kv.2 * (1 - evaporation_rate)))

/-- The deposition step of `_update_pheromones` for one successful path:
`pheromone_deposit = Q / total_fee` (a `ZeroDivisionError`, modelled as
`none`, when `total_fee = 0`), then each consecutive edge gains the deposit
on top of its current level (`dict.get` default 0). -/
def depositPath (Q : ℚ) (path : List String) (total_fee : ℚ) (p : Pheromones) :
    Option Pheromones :=
  if total_fee = 0 then none
  else
    some ((path.zip path.tail).foldl
      (fun p edge => pherSet p edge (pherGetD p edge 0 + Q / total_fee)) p)

/-- `LightningACO._update_pheromones`: evaporate everything, then deposit
along every successful path of the round. -/
def updatePheromones (cfg : Config) (p : Pheromones)
    (all_paths : List (List String × ℚ)) : Option Pheromones :=
  all_paths.foldl
    (fun acc pf => acc.bind (fun p => depositPath cfg.Q pf.1 pf.2 p))
    (some (decayPheromones cfg.evaporation_rate p))

/-- The inner ant loop of one iteration of `solve`: run the given number of
ants, collect successful `(path, fee)` pairs, and update the best solution
whenever a found fee beats the recorded best. -/
def runAnts (cfg : Config) (start_node end_node : String) (payment_amount : ℚ) :
    ℕ → SolverState → List (List String × ℚ) → List ℚ →
    SolverState × List (List String × ℚ) × List ℚ
  | 0, s, all_paths, rng => (s, all_paths, rng)
  | n + 1, s, all_paths, rng =>
    match constructPath cfg s.pheromones start_node end_node payment_amount rng with
    | (none, rng') => runAnts cfg start_node end_node payment_amount n s all_paths rng'
    | (some (path, total_fee), rng') =>
      let all_paths' := all_paths ++ [(path, total_fee)]
      let s' :=
        if (total_fee : WithTop ℚ) < s.best_path_fee then
          { s with best_path := some path, best_path_fee := (total_fee : WithTop ℚ) }
        else s
      runAnts cfg start_node end_node payment_amount n s' all_paths' rng'

/-- One iteration of the `solve` loop: run all ants, then apply the
pheromone update (whose fault propagates). -/
def runIteration (cfg : Config) (start_node end_node : String) (payment_amount : ℚ)
    (s : SolverState) (rng : List ℚ) : Option (SolverState × List ℚ) :=
  match runAnts cfg start_node end_node payment_amount cfg.num_ants.toNat s [] rng with
  | (s', all_paths, rng') =>
    match updatePheromones cfg s'.pheromones all_paths with
    | none => none
    | some ph => some ({ s' with pheromones := ph }, rng')

/-- The `for iteration in range(self.iterations)` loop of `solve`. -/
def solveLoop (cfg : Config) (start_node end_node : String) (payment_amount : ℚ) :
    ℕ → SolverState → List ℚ → Option (SolverState × List ℚ)
  | 0, s, rng => some (s, rng)
  | n + 1, s, rng =>
    match runIteration cfg start_node end_node payment_amount s rng with
    | none => none
    | some (s', rng') => solveLoop cfg start_node end_node payment_amount n s' rng'

/-- `LightningACO.solve`: re-populate the pheromone store, run the iteration
budget, and return `(self.best_path, self.best_path_fee)` together with the
post-call object state and the remaining draw stream.  `none` models an
uncaught `ZeroDivisionError`. -/
def solve (cfg : Config) (s : SolverState) (start_node end_node : String)
    (payment_amount : ℚ) (rng : List ℚ) :
    Option ((Option (List String) × WithTop ℚ) × SolverState × List ℚ) :=
  let s0 : SolverState := { s with pheromones := initPheromones cfg.graph s.pheromones }
  match solveLoop cfg start_node end_node payment_amount cfg.iterations.toNat s0 rng with
  | none => none
  | some (s', rng') => some ((s'.best_path, s'.best_path_fee), s', rng')

/-! Concrete fixtures used by witnesses and counterexamples. -/

/-- A single channel A → B with capacity 100 and constant fee 5. -/
def chAB : Channel := mkMockChannel "A" "B" 100 5 0

/-- A zero-fee channel A → B with capacity 100. -/
def chAB0 : Channel := mkMockChannel "A" "B" 100 0 0

/-- The two-node topology holding only `chAB`. -/
def g1 : NetworkGraph :=
  { get_all_nodes := ["A", "B"],
    get_outgoing_channels := fun n => if n = "A" then [chAB] else [] }

/-- The two-node topology holding only the zero-fee channel `chAB0`. -/
def g0 : NetworkGraph :=
  { get_all_nodes := ["A", "B"],
    get_outgoing_channels := fun n => if n = "A" then [chAB0] else [] }

/-- A topology with an empty node list and no channels. -/
def gE : NetworkGraph :=
  { get_all_nodes := [], get_outgoing_channels := fun _ => [] }

/-- A small well-formed configuration over `g1` (one ant, one iteration,
alpha 1, beta 0, evaporation 1/2). -/
def cfgA : Config :=
  { graph := g1, num_ants := 1, iterations := 1, alpha := 1, beta := 0,
    evaporation_rate := 1/2, Q := 100 }

/-- The same configuration with full evaporation (rate 1, still in [0,1]). -/
def cfg1 : Config := { cfgA with evaporation_rate := 1 }

/-- Two consecutive path nodes are joined by a real directed edge of the
topology whose capacity covers the payment amount. -/
def edgeStep (g : NetworkGraph) (payment_amount : ℚ) (u v : String) : Prop :=
  ∃ ch ∈ g.get_outgoing_channels u, ch.destination = v ∧ payment_amount ≤ ch.liquidity

/-- The configuration over the empty topology `gE`. -/
def cfgE : Config :=
  { graph := gE, num_ants := 1, iterations := 1, alpha := 1, beta := 0,
    evaporation_rate := 1/2, Q := 100 }

/-- An atomic Pheromone Store operation: the evaporation loop
(`level *= (1 - evaporation_rate)` over the whole store) or one deposit
(`store[edge] = store.get(edge, 0) + amount`). -/
inductive PherOp where
  | decay (rate : ℚ)
  | deposit (edge : String × String) (amount : ℚ)

/-- Apply one store operation, exactly as the two loops of
`_update_pheromones` do. -/
def applyPherOp (p : Pheromones) : PherOp → Pheromones
  | .decay rate => decayPheromones rate p
  | .deposit edge amount => pherSet p edge (pherGetD p edge 0 + amount)

/-- The claim's constraints: evaporation_rate ∈ [0,1], deposits ≥ 0. -/
def validPherOp : PherOp → Prop
  | .decay rate => 0 ≤ rate ∧ rate ≤ 1
  | .deposit _ amount => 0 ≤ amount

/-- Every level stored in the pheromone dictionary is non-negative. -/
def storeNonneg (p : Pheromones) : Prop := ∀ kv ∈ p, 0 ≤ kv.2

/-- `cfgA` with an invalid evaporation rate (2 lies outside [0,1]). -/
def cfg3 : Config := { cfgA with evaporation_rate := 2 }

/-- The configuration over the zero-fee topology `g0`. -/
def cfg0 : Config :=
  { graph := g0, num_ants := 1, iterations := 1, alpha := 1, beta := 0,
    evaporation_rate := 1/2, Q := 100 }

/-- A first solve A → B on a freshly constructed solver over `g1`, followed
by a second solve B → A on the same object (threading the object state and
the remaining draw stream). -/
def solveTwiceResult : Option ((Option (List String) × WithTop ℚ) × SolverState × List ℚ) :=
  (solve cfgA initState "A" "B" 10 [1/2, 1/2]).bind
    (fun r => solve cfgA r.2.1 "B" "A" 10 r.2.2)

/-- `cfgA` with a zero iteration budget. -/
def cfgNoIter : Config := { cfgA with iterations := 0 }

/-- `cfgA` with zero ants per iteration. -/
def cfgZeroAnts : Config := { cfgA with num_ants := 0 }

/-! Basic facts about the pheromone store operations. -/

theorem pherGetD_set_self (p : Pheromones) (e : String × String) (v d : ℚ) :
    pherGetD (pherSet p e v) e d = v := by
  induction p with
  | nil => simp [pherSet, pherGetD]
  | cons kv rest ih =>
    by_cases h : kv.1 = e <;> simp [pherSet, pherGetD, h, ih]

theorem pherFind_set (p : Pheromones) (e e' : String × String) (v : ℚ) :
    pherFind (pherSet p e v) e' = if e = e' then some v else pherFind p e' := by
  induction p with
  | nil =>
    by_cases h : e = e' <;> simp [pherSet, pherFind, h]
  | cons kv rest ih =>
    obtain ⟨k, w⟩ := kv
    by_cases hk : k = e
    · subst hk
      by_cases he : k = e'
      · subst he
        simp [pherSet, pherFind]
      · simp [pherSet, pherFind, he]
    · by_cases hk' : k = e'
      · subst hk'
        have hne : e ≠ k := fun hh => hk hh.symm
        simp [pherSet, pherFind, hk, hne]
      · simp [pherSet, pherFind, hk, hk', ih]

/-! Membership facts for the edge selector. -/

theorem rouletteWalk_mem {r : ℚ} {l : List (Channel × ℚ)} {ch : Channel} :
    ∀ {acc : ℚ}, rouletteWalk r acc l = some ch → ∃ p, (ch, p) ∈ l := by
  induction l with
  | nil => intro acc h; simp [rouletteWalk] at h
  | cons cp rest ih =>
    intro acc h
    obtain ⟨c, q⟩ := cp
    simp only [rouletteWalk] at h
    split at h
    · simp only [Option.some.injEq] at h
      exact ⟨q, h ▸ List.mem_cons_self _ _⟩
    · obtain ⟨p, hp⟩ := ih h
      exact ⟨p, List.mem_cons_of_mem _ hp⟩

theorem getLast?_mem {α : Type} {l : List α} {a : α} (h : l.getLast? = some a) : a ∈ l := by
  have hmem : a ∈ l.getLast? := Option.mem_def.mpr h
  obtain ⟨hne, rfl⟩ := List.mem_getLast?_eq_getLast hmem
  exact List.getLast_mem hne

theorem selectNext_mem {cfg : Config} {pher : Pheromones} {current_node : String}
    {visited_nodes : List String} {payment_amount : ℚ} {rng : List ℚ} {ch : Channel}
    (h : (selectNextChannel cfg pher current_node visited_nodes payment_amount rng).1 = some ch) :
    ch ∈ feasibleChannels cfg.graph payment_amount current_node visited_nodes := by
  simp only [selectNextChannel] at h
  set normalized :=
    (weightedChannels cfg pher current_node visited_nodes payment_amount).map
      (fun cp => (cp.1, cp.2 / totalWeight cfg pher current_node visited_nodes payment_amount))
    with hnorm
  by_cases h0 : totalWeight cfg pher current_node visited_nodes payment_amount = 0
  · rw [if_pos h0] at h
    simp at h
  · rw [if_neg h0] at h
    have key : ∃ p, (ch, p) ∈ normalized := by
      rcases hwalk : rouletteWalk ((drawUniform rng).1) 0 normalized with _ | ch'
      · rw [hwalk] at h
        simp only [Option.map_eq_some'] at h
        obtain ⟨cp, hcp, hfst⟩ := h
        exact ⟨cp.2, hfst ▸ (by simpa using getLast?_mem hcp)⟩
      · rw [hwalk] at h
        simp only [Option.some.injEq] at h
        obtain ⟨p, hp⟩ := rouletteWalk_mem hwalk
        exact ⟨p, h ▸ hp⟩
    obtain ⟨p, hp⟩ := key
    rw [hnorm] at hp
    simp only [List.mem_map, weightedChannels] at hp
    obtain ⟨cp, hcp, heq⟩ := hp
    obtain ⟨c0, hc0, rfl⟩ := hcp
    cases heq
    exact hc0

theorem feasible_spec {g : NetworkGraph} {payment_amount : ℚ} {current_node : String}
    {visited_nodes : List String} {ch : Channel}
    (h : ch ∈ feasibleChannels g payment_amount current_node visited_nodes) :
    ch ∈ g.get_outgoing_channels current_node ∧ ch.destination ∉ visited_nodes ∧
      payment_amount ≤ ch.liquidity := by
  have hm := List.mem_filter.mp h
  have h2 := hm.2
  simp only [Bool.and_eq_true, Bool.not_eq_true', decide_eq_true_eq] at h2
  refine ⟨hm.1, ?_, h2.2⟩
  have := h2.1
  simp_all

/-- Positivity of a single selector weight when the queried pheromone level
is positive and the fee is non-negative. -/
theorem channelWeight_pos (cfg : Config) (pher : Pheromones) (current_node : String)
    (ch : Channel) (payment_amount : ℚ)
    (hp : 0 < pherGetD pher (current_node, ch.destination) 1)
    (hf : 0 ≤ ch.calculate_fee payment_amount) :
    0 < channelWeight cfg pher current_node ch payment_amount := by
  unfold channelWeight
  have heps : (0:ℚ) < feeEps := by norm_num [feeEps]
  have h1 : (0:ℚ) < ch.calculate_fee payment_amount + feeEps := by linarith
  have h2 : (0:ℚ) < 1 / (ch.calculate_fee payment_amount + feeEps) := by positivity
  exact mul_pos (zpow_pos hp _) (zpow_pos h2 _)

/-- C1 (counterexample): with alpha = 1 and evaporation_rate = 1 (a value the
spec allows, rate ∈ [0,1]), one pheromone update with no successful paths —
a state reachable by decay — drives the level of the only feasible channel
to 0, so its weight is 0, the weight sum is 0, and the selector signals
"stuck" even though a feasible outgoing edge exists. -/
theorem selectNext_stuck_cex :
    updatePheromones cfg1 (initPheromones g1 []) [] = some [(("A", "B"), 0)] ∧
    feasibleChannels cfg1.graph 10 "A" ["A"] = [chAB] ∧
    (selectNextChannel cfg1 [(("A", "B"), 0)] "A" ["A"] 10 [1/2]).1 = none := by
  refine ⟨?_, ?_, ?_⟩
  · simp [updatePheromones, decayPheromones, initPheromones, pherSet, cfg1, cfgA, g1, chAB,
      mkMockChannel]
  · simp [feasibleChannels, cfg1, cfgA, g1, chAB, mkMockChannel, List.filter_cons]
    norm_num
  · simp [selectNextChannel, totalWeight, weightedChannels, feasibleChannels, channelWeight,
      pherGetD, cfg1, cfgA, g1, chAB, mkMockChannel, List.filter_cons]
    norm_num

/-- C1 (amended): for all (integer-modelled) alpha and beta, whenever at
least one feasible outgoing edge exists, every feasible edge's queried
pheromone level is strictly positive (as holds in every store reachable
with evaporation_rate < 1 and non-negative deposits) and fees are
non-negative, the weight sum is strictly positive and the selector
returns an edge — it never signals "stuck" in that case. -/
theorem selectNext_some_of_pos_pheromone (cfg : Config) (pher : Pheromones)
    (current_node : String) (visited_nodes : List String) (payment_amount : ℚ) (rng : List ℚ)
    (hne : feasibleChannels cfg.graph payment_amount current_node visited_nodes ≠ [])
    (hpher : ∀ ch ∈ feasibleChannels cfg.graph payment_amount current_node visited_nodes,
      0 < pherGetD pher (current_node, ch.destination) 1)
    (hfee : ∀ ch ∈ feasibleChannels cfg.graph payment_amount current_node visited_nodes,
      0 ≤ ch.calculate_fee payment_amount) :
    0 < totalWeight cfg pher current_node visited_nodes payment_amount ∧
    (selectNextChannel cfg pher current_node visited_nodes payment_amount rng).1.isSome := by
  have hpos : 0 < totalWeight cfg pher current_node visited_nodes payment_amount := by
    apply List.sum_pos
    · intro x hx
      simp only [List.mem_map, weightedChannels] at hx
      obtain ⟨cp, hcp, rfl⟩ := hx
      obtain ⟨c0, hc0, rfl⟩ := hcp
      exact channelWeight_pos cfg pher current_node c0 payment_amount
        (hpher c0 hc0) (hfee c0 hc0)
    · simp only [ne_eq, List.map_eq_nil_iff, weightedChannels]
      exact hne
  refine ⟨hpos, ?_⟩
  have hwne :
      (weightedChannels cfg pher current_node visited_nodes payment_amount).map
        (fun cp => (cp.1, cp.2 / totalWeight cfg pher current_node visited_nodes payment_amount))
        ≠ [] := by
    simp only [ne_eq, List.map_eq_nil_iff, weightedChannels]
    exact hne
  simp only [selectNextChannel]
  rw [if_neg (ne_of_gt hpos)]
  rcases hwalk : rouletteWalk ((drawUniform rng).1) 0
      ((weightedChannels cfg pher current_node visited_nodes payment_amount).map
        (fun cp => (cp.1, cp.2 / totalWeight cfg pher current_node visited_nodes payment_amount)))
    with _ | ch'
  · rw [hwalk, List.getLast?_eq_getLast_of_ne_nil hwne]
    simp
  · rw [hwalk]
    simp

/-- C1 (witness for the amended theorem): the freshly initialized store on
the one-channel topology satisfies the hypotheses, and there the selector
succeeds. -/
theorem selectNext_some_of_pos_pheromone_witness :
    0 < totalWeight cfgA [(("A", "B"), 1)] "A" ["A"] 10 ∧
    (selectNextChannel cfgA [(("A", "B"), 1)] "A" ["A"] 10 [1/2]).1.isSome :=
  selectNext_some_of_pos_pheromone cfgA [(("A", "B"), 1)] "A" ["A"] 10 [1/2]
    (by simp [feasibleChannels, cfgA, g1, chAB, mkMockChannel, List.filter_cons]
        norm_num)
    (by intro ch hch
        have hfe : feasibleChannels cfgA.graph 10 "A" ["A"] = [chAB] := by
          simp [feasibleChannels, cfgA, g1, chAB, mkMockChannel, List.filter_cons]
          norm_num
        rw [hfe] at hch
        simp only [List.mem_singleton] at hch
        subst hch
        norm_num [pherGetD, chAB, mkMockChannel])
    (by intro ch hch
        have hfe : feasibleChannels cfgA.graph 10 "A" ["A"] = [chAB] := by
          simp [feasibleChannels, cfgA, g1, chAB, mkMockChannel, List.filter_cons]
          norm_num
        rw [hfe] at hch
        simp only [List.mem_singleton] at hch
        subst hch
        norm_num [chAB, mkMockChannel])

/-- Soundness invariant of the `_construct_path` loop: a completed path is
duplicate-free, follows capacity-respecting topology edges, keeps its head,
ends at the end node, and has length at most `max (node count) 1`. -/
theorem constructAux_sound :
    ∀ (k : ℕ) (cfg : Config) (end_node : String) (amt : ℚ) (pher : Pheromones)
      (path : List String) (cur : String) (fee : ℚ) (rng : List ℚ)
      (p : List String) (f : ℚ) (rng' : List ℚ),
      cfg.graph.get_all_nodes.length - path.length ≤ k →
      path ≠ [] → path.getLast? = some cur → path.Nodup →
      List.Chain' (edgeStep cfg.graph amt) path →
      path.length ≤ max cfg.graph.get_all_nodes.length 1 →
      constructAux cfg end_node amt pher path cur fee rng = (some (p, f), rng') →
      p.Nodup ∧ List.Chain' (edgeStep cfg.graph amt) p ∧
        p.length ≤ max cfg.graph.get_all_nodes.length 1 ∧
        p.head? = path.head? ∧ p.getLast? = some end_node := by
  intro k
  induction k with
  | zero =>
    intro cfg end_node amt pher path cur fee rng p f rng'
    intro hk hne hlast hnodup hchain hlen hres
    rw [constructAux.eq_def] at hres
    split at hres
    · omega
    · next hguard =>
      split at hres
      · next hcur =>
        simp only [Prod.mk.injEq, Option.some.injEq] at hres
        obtain ⟨⟨rfl, rfl⟩, rfl⟩ := hres
        exact ⟨hnodup, hchain, hlen, rfl, hcur ▸ hlast⟩
      · simp at hres
  | succ k ih =>
    intro cfg end_node amt pher path cur fee rng p f rng'
    intro hk hne hlast hnodup hchain hlen hres
    rw [constructAux.eq_def] at hres
    split at hres
    · next hguard =>
      split at hres
      · simp at hres
      · next ch rng2 hsel =>
        have hfst : (selectNextChannel cfg pher cur path amt rng).1 = some ch := by
          rw [hsel]
        have hfeas := feasible_spec (selectNext_mem hfst)
        obtain ⟨hmem, hnvis, hliq⟩ := hfeas
        have hstep :
            constructAux cfg end_node amt pher (path ++ [ch.destination]) ch.destination
              (fee + ch.calculate_fee amt) rng2 = (some (p, f), rng') := hres
        have hlen' : path.length < cfg.graph.get_all_nodes.length := hguard.2
        have hconc := ih cfg end_node amt pher (path ++ [ch.destination]) ch.destination
          (fee + ch.calculate_fee amt) rng2 p f rng'
          (by simp only [List.length_append, List.length_cons, List.length_nil]; omega)
          (by simp)
          (by rw [List.getLast?_concat])
          (by
            rw [List.nodup_append]
            exact ⟨hnodup, List.nodup_singleton _, by simpa using hnvis⟩)
          (by
            rw [List.chain'_append]
            refine ⟨hchain, List.chain'_singleton _, ?_⟩
            intro x hx y hy
            have hx' : cur = x := by rw [hlast] at hx; simpa using hx
            have hy' : ch.destination = y := by simpa using hy
            subst hx'; subst hy'
            exact ⟨ch, hmem, rfl, hliq⟩)
          (by
            simp only [List.length_append, List.length_cons, List.length_nil]
            omega)
          hstep
        obtain ⟨c1, c2, c3, c4, c5⟩ := hconc
        refine ⟨c1, c2, c3, ?_, c5⟩
        rw [c4]
        obtain ⟨a, t, rfl⟩ := List.exists_cons_of_ne_nil hne
        simp
    · next hguard =>
      split at hres
      · next hcur =>
        simp only [Prod.mk.injEq, Option.some.injEq] at hres
        obtain ⟨⟨rfl, rfl⟩, rfl⟩ := hres
        exact ⟨hnodup, hchain, hlen, rfl, hcur ▸ hlast⟩
      · simp at hres

/-- C5 (amended): every path returned as complete by the Path Constructor
starts at the start node, ends at the end node, repeats no node, follows
real directed topology edges each with capacity at least the payment
amount, and has length at most `max (node count) 1` (the trivial one-node
path can exceed a zero node count, hence the `max`). -/
theorem construct_path_invariants (cfg : Config) (pher : Pheromones)
    (start_node end_node : String) (payment_amount : ℚ) (rng rng' : List ℚ)
    (p : List String) (f : ℚ)
    (h : constructPath cfg pher start_node end_node payment_amount rng = (some (p, f), rng')) :
    p.Nodup ∧ List.Chain' (edgeStep cfg.graph payment_amount) p ∧
      p.length ≤ max cfg.graph.get_all_nodes.length 1 ∧
      p.head? = some start_node ∧ p.getLast? = some end_node := by
  have hmain := constructAux_sound cfg.graph.get_all_nodes.length cfg end_node payment_amount
    pher [start_node] start_node 0 rng p f rng'
    (by simp)
    (by simp)
    (by simp)
    (List.nodup_singleton _)
    (List.chain'_singleton _)
    (by simp)
    h
  obtain ⟨c1, c2, c3, c4, c5⟩ := hmain
  exact ⟨c1, c2, c3, by simpa using c4, c5⟩

/-- The trivial walk when start equals end: the loop body never runs and the
single-node path with fee 0 is returned as complete. -/
theorem constructPath_self (cfg : Config) (pher : Pheromones) (s : String)
    (payment_amount : ℚ) (rng : List ℚ) :
    constructPath cfg pher s s payment_amount rng = (some ([s], 0), rng) := by
  rw [constructPath, constructAux.eq_def]
  simp

/-- C5 (counterexample): on a topology with an empty node list, asking for a
route from a node to itself completes with the one-node path of length 1,
which exceeds the total node count 0 — the claimed bound
`path length ≤ node count` fails. -/
theorem construct_path_length_cex :
    constructPath cfgE [] "A" "A" 5 [] = (some (["A"], 0), []) ∧
    ¬ ((["A"] : List String).length ≤ cfgE.graph.get_all_nodes.length) := by
  constructor
  · exact constructPath_self cfgE [] "A" 5 []
  · simp [cfgE, gE]

/-- C5 (witness): a concrete completed run A → B on `cfgA` satisfies all the
invariants of the amended claim. -/
theorem construct_path_invariants_witness :
    (["A", "B"] : List String).Nodup ∧
    List.Chain' (edgeStep cfgA.graph 10) ["A", "B"] ∧
    (["A", "B"] : List String).length ≤ max cfgA.graph.get_all_nodes.length 1 ∧
    (["A", "B"] : List String).head? = some "A" ∧
    (["A", "B"] : List String).getLast? = some "B" :=
  construct_path_invariants cfgA [(("A", "B"), 1)] "A" "B" 10 [1/2] [] ["A", "B"] 5
    (by simp [constructPath, constructAux, selectNextChannel, totalWeight, weightedChannels,
         feasibleChannels, channelWeight, pherGetD, rouletteWalk, drawUniform, cfgA, g1, chAB,
         mkMockChannel, List.filter_cons]
        norm_num)

theorem mem_pherSet {p : Pheromones} {e : String × String} {v : ℚ} {kv : (String × String) × ℚ}
    (h : kv ∈ pherSet p e v) : kv ∈ p ∨ kv.2 = v := by
  induction p with
  | nil => simp [pherSet] at h; simp [h]
  | cons kw rest ih =>
    obtain ⟨k, w⟩ := kw
    simp only [pherSet] at h
    split at h
    · rcases List.mem_cons.mp h with h1 | h1
      · right; rw [h1]
      · left; exact List.mem_cons_of_mem _ h1
    · rcases List.mem_cons.mp h with h1 | h1
      · left; rw [h1]; exact List.mem_cons_self _ _
      · rcases ih h1 with h2 | h2
        · left; exact List.mem_cons_of_mem _ h2
        · right; exact h2

theorem pherGetD_nonneg {p : Pheromones} {e : String × String} {d : ℚ}
    (hp : storeNonneg p) (hd : 0 ≤ d) : 0 ≤ pherGetD p e d := by
  induction p with
  | nil => simpa [pherGetD] using hd
  | cons kw rest ih =>
    obtain ⟨k, w⟩ := kw
    simp only [pherGetD]
    split
    · exact hp (k, w) (List.mem_cons_self _ _)
    · exact ih (fun kv hkv => hp kv (List.mem_cons_of_mem _ hkv))

theorem storeNonneg_apply {p : Pheromones} {op : PherOp}
    (hp : storeNonneg p) (hop : validPherOp op) : storeNonneg (applyPherOp p op) := by
  cases op with
  | decay rate =>
    intro kv hkv
    simp only [applyPherOp, decayPheromones, List.mem_map] at hkv
    obtain ⟨kv0, hkv0, rfl⟩ := hkv
    obtain ⟨h0, h1⟩ := hop
    exact mul_nonneg (hp kv0 hkv0) (by linarith)
  | deposit edge amount =>
    intro kv hkv
    rcases mem_pherSet hkv with h1 | h1
    · exact hp kv h1
    · rw [h1]
      exact add_nonneg (pherGetD_nonneg hp le_rfl) hop

theorem storeNonneg_init (g : NetworkGraph) {p : Pheromones} (hp : storeNonneg p) :
    storeNonneg (initPheromones g p) := by
  unfold initPheromones
  generalize g.get_all_nodes = nodes
  induction nodes generalizing p with
  | nil => simpa using hp
  | cons n rest ih =>
    simp only [List.foldl_cons]
    apply ih
    generalize g.get_outgoing_channels n = chs
    induction chs generalizing p with
    | nil => simpa using hp
    | cons c crest ihc =>
      simp only [List.foldl_cons]
      apply ihc
      intro kv hkv
      rcases mem_pherSet hkv with h1 | h1
      · exact hp kv h1
      · rw [h1]; norm_num

/-- C6: starting from the store populated by `_initialize_pheromones`
(every topology edge at level 1.0), every stored pheromone level stays
non-negative after any finite sequence of decay and deposit operations
with evaporation_rate ∈ [0,1] and non-negative deposit amounts. -/
theorem pheromone_levels_nonneg (g : NetworkGraph) (ops : List PherOp)
    (hops : ∀ op ∈ ops, validPherOp op) :
    storeNonneg (ops.foldl applyPherOp (initPheromones g [])) := by
  have hgen : ∀ (l : List PherOp) (p : Pheromones), storeNonneg p →
      (∀ op ∈ l, validPherOp op) → storeNonneg (l.foldl applyPherOp p) := by
    intro l
    induction l with
    | nil => intro p hp _; simpa using hp
    | cons op rest ih =>
      intro p hp hl
      simp only [List.foldl_cons]
      exact ih _ (storeNonneg_apply hp (hl op (List.mem_cons_self _ _)))
        (fun o ho => hl o (List.mem_cons_of_mem _ ho))
  exact hgen ops _ (storeNonneg_init g (by intro kv hkv; simp at hkv)) hops

/-- C6 (witness): a concrete operation sequence — half decay, a deposit of
20 on (A,B), then full decay — keeps all levels of the `g1` store
non-negative. -/
theorem pheromone_levels_nonneg_witness :
    storeNonneg ([PherOp.decay (1/2), PherOp.deposit ("A", "B") 20,
      PherOp.decay 1].foldl applyPherOp (initPheromones g1 [])) :=
  pheromone_levels_nonneg g1 _
    (by intro op hop
        fin_cases hop <;> norm_num [validPherOp])

/-- The ant loop never increases the recorded best fee: it replaces the best
solution only when a strictly smaller fee is found. -/
theorem runAnts_best_le (cfg : Config) (start_node end_node : String) (payment_amount : ℚ) :
    ∀ (n : ℕ) (s : SolverState) (acc : List (List String × ℚ)) (rng : List ℚ),
      (runAnts cfg start_node end_node payment_amount n s acc rng).1.best_path_fee ≤
        s.best_path_fee := by
  intro n
  induction n with
  | zero => intro s acc rng; simp [runAnts]
  | succ n ih =>
    intro s acc rng
    simp only [runAnts]
    split
    · exact ih _ _ _
    · next path total_fee rng' heq =>
      refine le_trans (ih _ _ _) ?_
      split
      · next hlt => exact le_of_lt hlt
      · exact le_rfl

/-- C7: within a solve, one iteration of the loop never increases the
recorded Best Solution fee: whenever the iteration completes with state s',
`s'.best_path_fee ≤ s.best_path_fee` — the best fee is monotonically
non-increasing across iterations. -/
theorem best_fee_monotone (cfg : Config) (start_node end_node : String)
    (payment_amount : ℚ) (s s' : SolverState) (rng rng' : List ℚ)
    (h : runIteration cfg start_node end_node payment_amount s rng = some (s', rng')) :
    s'.best_path_fee ≤ s.best_path_fee := by
  unfold runIteration at h
  rcases hra : runAnts cfg start_node end_node payment_amount cfg.num_ants.toNat s [] rng
    with ⟨s1, all_paths, rng1⟩
  rw [hra] at h
  dsimp only at h
  rcases hup : updatePheromones cfg s1.pheromones all_paths with _ | ph
  · rw [hup] at h; simp at h
  · rw [hup] at h
    simp only [Option.some.injEq, Prod.mk.injEq] at h
    obtain ⟨rfl, rfl⟩ : { s1 with pheromones := ph } = s' ∧ rng1 = rng' := ⟨h.1, h.2⟩
    have := runAnts_best_le cfg start_node end_node payment_amount cfg.num_ants.toNat s [] rng
    rw [hra] at this
    exact this

/-- C7 (witness): a concrete completed iteration on `cfgA` drops the best
fee from +infinity to 5, which is non-increasing. -/
theorem best_fee_monotone_witness :
    (⟨[(("A", "B"), 41/2)], some ["A", "B"], (5 : WithTop ℚ)⟩ : SolverState).best_path_fee ≤
    (⟨[(("A", "B"), 1)], none, ⊤⟩ : SolverState).best_path_fee :=
  best_fee_monotone cfgA "A" "B" 10 ⟨[(("A", "B"), 1)], none, ⊤⟩
    ⟨[(("A", "B"), 41/2)], some ["A", "B"], (5 : WithTop ℚ)⟩ [1/2] []
    (by simp [runIteration, runAnts, constructPath, constructAux, selectNextChannel,
         totalWeight, weightedChannels, feasibleChannels, channelWeight, pherGetD, rouletteWalk,
         drawUniform, updatePheromones, decayPheromones, depositPath, pherSet,
         cfgA, g1, chAB, mkMockChannel, List.filter_cons]
        norm_num [pherSet, pherGetD])

/-- C8: `solve` is deterministic given its random source — two runs from the
same object state with the same topology, parameters and draw stream return
identical results.  (In the embedding every other ordering — dict iteration,
channel enumeration — is a fixed list order, so the draw stream is the sole
source of variation.) -/
theorem solve_deterministic (cfg : Config) (s : SolverState) (start_node end_node : String)
    (payment_amount : ℚ) (rng₁ rng₂ : List ℚ) (h : rng₁ = rng₂) :
    solve cfg s start_node end_node payment_amount rng₁ =
      solve cfg s start_node end_node payment_amount rng₂ := by
  rw [h]

/-- C8 (witness): the two runs at a concrete seeded stream coincide. -/
theorem solve_deterministic_witness :
    solve cfgA initState "A" "B" 10 [1/2] = solve cfgA initState "A" "B" 10 [1/2] :=
  solve_deterministic cfgA initState "A" "B" 10 [1/2] [1/2] rfl

/-- Setting levels to 1 preserves a key already at level 1. -/
theorem pherFind_foldl_preserve1 (chs : List Channel) :
    ∀ (p : Pheromones) (e : String × String), pherFind p e = some 1 →
      pherFind (chs.foldl (fun p channel => pherSet p (channel.source, channel.destination) 1) p) e
        = some 1 := by
  induction chs with
  | nil => intro p e hp; simpa using hp
  | cons c rest ih =>
    intro p e hp
    simp only [List.foldl_cons]
    apply ih
    rw [pherFind_set]
    split <;> simp [hp]

/-- After one node's channel loop in `_initialize_pheromones`, every edge of
that loop is stored at level 1. -/
theorem pherFind_foldl_set (chs : List Channel) :
    ∀ (p : Pheromones) (ch : Channel), ch ∈ chs →
      pherFind (chs.foldl (fun p channel => pherSet p (channel.source, channel.destination) 1) p)
        (ch.source, ch.destination) = some 1 := by
  induction chs with
  | nil => intro p ch hch; simp at hch
  | cons c rest ih =>
    intro p ch hch
    rcases List.mem_cons.mp hch with rfl | hch'
    · simp only [List.foldl_cons]
      apply pherFind_foldl_preserve1
      rw [pherFind_set]
      simp
    · exact ih _ ch hch'

/-- The per-node loops of `_initialize_pheromones` preserve a key already at
level 1. -/
theorem pherFind_init_preserve1 (g : NetworkGraph) (nodes : List String) :
    ∀ (p : Pheromones) (e : String × String), pherFind p e = some 1 →
      pherFind (nodes.foldl
        (fun p node =>
          (g.get_outgoing_channels node).foldl
            (fun p channel => pherSet p (channel.source, channel.destination) 1) p) p) e
        = some 1 := by
  induction nodes with
  | nil => intro p e hp; simpa using hp
  | cons n restn ih =>
    intro p e hp
    simp only [List.foldl_cons]
    exact ih _ _ (pherFind_foldl_preserve1 _ _ _ hp)

/-- C2 (amended): each `solve` call re-populates the Pheromone Store — after
the `_initialize_pheromones` step every topology edge's level is exactly 1.0
regardless of what any earlier call left in the dictionary — but the Best
Solution is set to (none, +infinity) only in the constructor; `solve` never
resets it, so it persists across calls on the same solver object (see the
counterexample for the observable effect). -/
theorem solve_fresh_pheromones_stale_best (g : NetworkGraph) (p : Pheromones)
    (n : String) (ch : Channel) (hn : n ∈ g.get_all_nodes)
    (hch : ch ∈ g.get_outgoing_channels n) :
    pherFind (initPheromones g p) (ch.source, ch.destination) = some 1 ∧
    initState.best_path = none ∧ initState.best_path_fee = ⊤ := by
  refine ⟨?_, rfl, rfl⟩
  unfold initPheromones
  have hgen : ∀ (nodes : List String) (p : Pheromones), n ∈ nodes →
      pherFind (nodes.foldl
        (fun p node =>
          (g.get_outgoing_channels node).foldl
            (fun p channel => pherSet p (channel.source, channel.destination) 1) p) p)
        (ch.source, ch.destination) = some 1 := by
    intro nodes
    induction nodes with
    | nil => intro p hp; simp at hp
    | cons m rest ih =>
      intro p hp
      rcases List.mem_cons.mp hp with rfl | hn'
      · simp only [List.foldl_cons]
        exact pherFind_init_preserve1 g rest _ _ (pherFind_foldl_set _ _ ch hch)
      · simp only [List.foldl_cons]
        exact ih _ hn'
  exact hgen _ p hn

/-- C2 (witness): over `g1`, with junk left in the dictionary, edge (A,B) is
back at level 1 after re-initialization, and the constructed solver starts
at (none, +infinity). -/
theorem solve_fresh_pheromones_stale_best_witness :
    pherFind (initPheromones g1 [(("A", "B"), 7)]) (chAB.source, chAB.destination) = some 1 ∧
    initState.best_path = none ∧ initState.best_path_fee = ⊤ :=
  solve_fresh_pheromones_stale_best g1 [(("A", "B"), 7)] "A" chAB
    (by simp [g1]) (by simp [g1])

/-- C2 (counterexample): the second solve (B → A, a direction with no path)
returns the FIRST call's best solution (["A","B"], 5) instead of the fresh
result (none, +infinity) that the same call produces on a fresh solver —
a second independent solve call is affected by the earlier one. -/
theorem second_solve_stale_best_cex :
    solveTwiceResult.map (fun r => r.1) = some (some ["A", "B"], (5 : WithTop ℚ)) ∧
    (solve cfgA initState "B" "A" 10 [1/2]).map (fun r => r.1) =
      some (none, (⊤ : WithTop ℚ)) := by
  constructor
  · simp [solveTwiceResult, solve, solveLoop, runIteration, runAnts, constructPath, constructAux,
      selectNextChannel, totalWeight, weightedChannels, feasibleChannels, channelWeight,
      pherGetD, rouletteWalk, drawUniform, updatePheromones, decayPheromones, depositPath,
      pherSet, initPheromones, initState, cfgA, g1, chAB, mkMockChannel, List.filter_cons]
    norm_num [pherSet, pherGetD]
  · simp [solve, solveLoop, runIteration, runAnts, constructPath, constructAux,
      selectNextChannel, totalWeight, weightedChannels, feasibleChannels, channelWeight,
      pherGetD, rouletteWalk, drawUniform, updatePheromones, decayPheromones, depositPath,
      pherSet, initPheromones, initState, cfgA, g1, chAB, mkMockChannel, List.filter_cons]

/-- C3: `LightningACO` performs no parameter validation at all — with
evaporation_rate = 2 (outside [0,1], an InvalidParameters case) `solve`
raises no configuration error, silently runs its full iteration (even
decaying pheromone levels by the negative factor 1 - 2), and returns a
normal best-path result. -/
theorem solve_no_param_validation :
    ¬ (0 ≤ cfg3.evaporation_rate ∧ cfg3.evaporation_rate ≤ 1) ∧
    (solve cfg3 initState "A" "B" 10 [1/2]).map (fun r => r.1) =
      some (some ["A", "B"], (5 : WithTop ℚ)) := by
  constructor
  · norm_num [cfg3, cfgA]
  · simp [solve, solveLoop, runIteration, runAnts, constructPath, constructAux,
      selectNextChannel, totalWeight, weightedChannels, feasibleChannels, channelWeight,
      pherGetD, rouletteWalk, drawUniform, updatePheromones, decayPheromones, depositPath,
      pherSet, initPheromones, initState, cfg3, cfgA, g1, chAB, mkMockChannel, List.filter_cons]
    norm_num [pherSet, pherGetD]

/-- C4: the deposit computation `Q / total_fee` is NOT guarded: a zero-fee
channel yields the complete path ["A","B"] with total fee 0, on which
`_update_pheromones` hits the division by zero (modelled `none`), and the
fault escapes `solve`. -/
theorem zero_fee_deposit_faults :
    constructPath cfg0 (initPheromones g0 []) "A" "B" 10 [1/2] = (some (["A", "B"], 0), []) ∧
    updatePheromones cfg0 (initPheromones g0 []) [(["A", "B"], 0)] = none ∧
    solve cfg0 initState "A" "B" 10 [1/2] = none := by
  refine ⟨?_, ?_, ?_⟩
  · simp [constructPath, constructAux, selectNextChannel, totalWeight, weightedChannels,
      feasibleChannels, channelWeight, pherGetD, rouletteWalk, drawUniform, initPheromones,
      pherSet, cfg0, g0, chAB0, mkMockChannel, List.filter_cons]
    norm_num
  · simp [updatePheromones, decayPheromones, depositPath, initPheromones, pherSet,
      cfg0, g0, chAB0, mkMockChannel]
  · simp [solve, solveLoop, runIteration, runAnts, constructPath, constructAux,
      selectNextChannel, totalWeight, weightedChannels, feasibleChannels, channelWeight,
      pherGetD, rouletteWalk, drawUniform, updatePheromones, decayPheromones, depositPath,
      pherSet, initPheromones, initState, cfg0, g0, chAB0, mkMockChannel, List.filter_cons]
    norm_num

/-- `all_paths` only grows by appending: the collected successes extend the
incoming accumulator. -/
theorem runAnts_paths_append (cfg : Config) (start_node end_node : String)
    (payment_amount : ℚ) :
    ∀ (n : ℕ) (s : SolverState) (acc : List (List String × ℚ)) (rng : List ℚ),
      ∃ rest, (runAnts cfg start_node end_node payment_amount n s acc rng).2.1 = acc ++ rest := by
  intro n
  induction n with
  | zero => intro s acc rng; exact ⟨[], by simp [runAnts]⟩
  | succ n ih =>
    intro s acc rng
    simp only [runAnts]
    split
    · exact ih _ _ _
    · next path total_fee rng' heq =>
      obtain ⟨rest, hrest⟩ := ih
        (if (total_fee : WithTop ℚ) < s.best_path_fee then
          { s with best_path := some path, best_path_fee := (total_fee : WithTop ℚ) }
         else s)
        (acc ++ [(path, total_fee)]) rng'
      exact ⟨(path, total_fee) :: rest, by rw [hrest, List.append_assoc]; rfl⟩

/-- A deposit fold that has already faulted stays faulted. -/
theorem foldl_bind_none (Q : ℚ) (l : List (List String × ℚ)) :
    l.foldl (fun acc pf => acc.bind (fun p => depositPath Q pf.1 pf.2 p)) none = none := by
  induction l with
  | nil => rfl
  | cons x rest ih => simpa using ih

/-- C9 (amended): when start == end the construction loop body never runs
and every agent returns the single-node path ([start], 0) with total fee 0;
but `solve` with at least one ant and one iteration then computes the
deposit `Q / 0` for that path and raises ZeroDivisionError (modelled
`none`) instead of returning (([start]), 0). -/
theorem start_eq_end_faults (cfg : Config) (s : SolverState) (start_node : String)
    (payment_amount : ℚ) (rng : List ℚ)
    (hants : 1 ≤ cfg.num_ants) (hiter : 1 ≤ cfg.iterations) :
    constructPath cfg s.pheromones start_node start_node payment_amount rng
      = (some ([start_node], 0), rng) ∧
    solve cfg s start_node start_node payment_amount rng = none := by
  refine ⟨constructPath_self cfg s.pheromones start_node payment_amount rng, ?_⟩
  obtain ⟨m, hm⟩ : ∃ m, cfg.iterations.toNat = m + 1 := ⟨cfg.iterations.toNat - 1, by omega⟩
  obtain ⟨a, ha⟩ : ∃ a, cfg.num_ants.toNat = a + 1 := ⟨cfg.num_ants.toNat - 1, by omega⟩
  have hiterNone : ∀ (s0 : SolverState),
      runIteration cfg start_node start_node payment_amount s0 rng = none := by
    intro s0
    unfold runIteration
    rw [ha]
    simp only [runAnts]
    rw [constructPath_self cfg s0.pheromones start_node payment_amount rng]
    dsimp only
    have hpaths := runAnts_paths_append cfg start_node start_node payment_amount a
      (if ((0 : ℚ) : WithTop ℚ) < s0.best_path_fee then
        { s0 with best_path := some [start_node], best_path_fee := ((0 : ℚ) : WithTop ℚ) }
       else s0)
      ([] ++ [([start_node], (0 : ℚ))]) rng
    obtain ⟨rest, hrest⟩ := hpaths
    rcases hra : runAnts cfg start_node start_node payment_amount a
      (if ((0 : ℚ) : WithTop ℚ) < s0.best_path_fee then
        { s0 with best_path := some [start_node], best_path_fee := ((0 : ℚ) : WithTop ℚ) }
       else s0)
      ([] ++ [([start_node], (0 : ℚ))]) rng with ⟨s1, paths1, rng1⟩
    rw [hra] at hrest
    simp only at hrest
    dsimp only
    rw [hrest]
    simp only [List.nil_append, List.cons_append]
    rw [updatePheromones]
    simp only [List.foldl_cons, Option.some_bind]
    rw [depositPath]
    simp only [eq_self_iff_true, if_true]
    rw [foldl_bind_none]
  simp only [solve]
  rw [hm]
  simp only [solveLoop]
  rw [hiterNone]

/-- C9 (counterexample): on `cfgA` (one ant, one iteration) a solve with
start == end does NOT return (([start]), 0): it faults (ZeroDivisionError,
modelled `none`) in the pheromone deposit for the zero-fee trivial path. -/
theorem start_eq_end_solve_cex :
    solve cfgA initState "A" "A" 10 [1/2] = none := by
  simp [solve, solveLoop, runIteration, runAnts, constructPath, constructAux,
    selectNextChannel, totalWeight, weightedChannels, feasibleChannels, channelWeight,
    pherGetD, rouletteWalk, drawUniform, updatePheromones, decayPheromones, depositPath,
    pherSet, initPheromones, initState, cfgA, g1, chAB, mkMockChannel, List.filter_cons]

/-- C9 (witness for the amended theorem): on `cfgA` the trivial path is
produced and the solve call faults. -/
theorem start_eq_end_faults_witness :
    constructPath cfgA initState.pheromones "B" "B" 10 [1/2] = (some (["B"], 0), [1/2]) ∧
    solve cfgA initState "B" "B" 10 [1/2] = none :=
  start_eq_end_faults cfgA initState "B" 10 [1/2] (by norm_num [cfgA]) (by norm_num [cfgA])

/-- With no ants the ant loop is the identity on state and collects no
paths. -/
theorem runAnts_zero (cfg : Config) (start_node end_node : String) (payment_amount : ℚ)
    (s : SolverState) (acc : List (List String × ℚ)) (rng : List ℚ) :
    runAnts cfg start_node end_node payment_amount 0 s acc rng = (s, acc, rng) := rfl

/-- With no ants an iteration always succeeds and only decays the store. -/
theorem runIteration_no_ants (cfg : Config) (start_node end_node : String)
    (payment_amount : ℚ) (s : SolverState) (rng : List ℚ) (h : cfg.num_ants ≤ 0) :
    runIteration cfg start_node end_node payment_amount s rng =
      some ({ s with pheromones := decayPheromones cfg.evaporation_rate s.pheromones }, rng) := by
  have h0 : cfg.num_ants.toNat = 0 := by omega
  unfold runIteration
  rw [h0, runAnts_zero]
  rfl

/-- With no ants the whole loop succeeds, never touches the best solution,
and only re-decays the store. -/
theorem solveLoop_no_ants (cfg : Config) (start_node end_node : String)
    (payment_amount : ℚ) (h : cfg.num_ants ≤ 0) :
    ∀ (n : ℕ) (s : SolverState) (rng : List ℚ),
      ∃ ph, solveLoop cfg start_node end_node payment_amount n s rng =
        some ({ s with pheromones := ph }, rng) := by
  intro n
  induction n with
  | zero => intro s rng; exact ⟨s.pheromones, rfl⟩
  | succ n ih =>
    intro s rng
    obtain ⟨ph, hph⟩ := ih
      { s with pheromones := decayPheromones cfg.evaporation_rate s.pheromones } rng
    refine ⟨ph, ?_⟩
    simp only [solveLoop]
    rw [runIteration_no_ants cfg start_node end_node payment_amount s rng h]
    exact hph

/-- C10 (amended): with iterations ≤ 0 `solve` runs no iteration bodies, no
pheromone update occurs (the store is only re-initialized), no error is
raised, and a fresh solver returns (none, +infinity); with num_ants ≤ 0 no
agents run and `solve` still returns the solver's recorded best — (none,
+infinity) on a fresh solver — without error, but the iteration bodies DO
run and the pheromone store is decayed once per iteration. -/
theorem nonpositive_budget_amended (cfg : Config) (s : SolverState)
    (start_node end_node : String) (payment_amount : ℚ) (rng : List ℚ) :
    (cfg.iterations ≤ 0 →
      solve cfg s start_node end_node payment_amount rng =
        some ((s.best_path, s.best_path_fee),
          { s with pheromones := initPheromones cfg.graph s.pheromones }, rng)) ∧
    (cfg.num_ants ≤ 0 →
      (solve cfg s start_node end_node payment_amount rng).map (fun r => r.1) =
        some (s.best_path, s.best_path_fee)) := by
  constructor
  · intro hiter
    have h0 : cfg.iterations.toNat = 0 := by omega
    simp only [solve, h0, solveLoop]
  · intro hants
    obtain ⟨ph, hph⟩ := solveLoop_no_ants cfg start_node end_node payment_amount hants
      cfg.iterations.toNat { s with pheromones := initPheromones cfg.graph s.pheromones } rng
    simp only [solve]
    rw [hph]
    rfl

/-- C10 (counterexample): with num_ants = 0 and one iteration, `solve` does
return (none, +infinity) without error, but a pheromone update DOES occur:
edge (A,B) is initialized at level 1 and comes out decayed to 1/2. -/
theorem zero_ants_decay_cex :
    pherFind (initPheromones g1 []) ("A", "B") = some 1 ∧
    solve cfgZeroAnts initState "A" "B" 10 [] =
      some ((none, (⊤ : WithTop ℚ)),
        ⟨[(("A", "B"), 1/2)], none, (⊤ : WithTop ℚ)⟩, []) := by
  constructor
  · simp [initPheromones, pherSet, pherFind, g1, chAB, mkMockChannel]
  · simp [solve, solveLoop, runIteration, runAnts, updatePheromones, decayPheromones,
      initPheromones, pherSet, initState, cfgZeroAnts, cfgA, g1, chAB, mkMockChannel]
    norm_num

/-- C10 (witness for the amended theorem): both branches at concrete
configurations — zero iterations, and zero ants with one iteration. -/
theorem nonpositive_budget_witness :
    solve cfgNoIter initState "A" "B" 10 [] =
      some ((none, (⊤ : WithTop ℚ)),
        { initState with pheromones := initPheromones cfgNoIter.graph initState.pheromones },
        []) ∧
    (solve cfgZeroAnts initState "A" "B" 10 []).map (fun r => r.1) =
      some (none, (⊤ : WithTop ℚ)) :=
  ⟨(nonpositive_budget_amended cfgNoIter initState "A" "B" 10 []).1
      (by norm_num [cfgNoIter, cfgA]),
   (nonpositive_budget_amended cfgZeroAnts initState "A" "B" 10 []).2
      (by norm_num [cfgZeroAnts, cfgA])⟩
